import Mathlib

/-!
Verification development for `libs/Loss.py` (EMSSL): a shallow embedding of the
segmentation loss library and proofs about it.

Tensors of shape `(B, C, *S)` are embedded as nested lists `List (List (List α))`
with all spatial axes flattened into a single trailing axis; every reduction the
library performs treats the spatial axes uniformly (it always sums or means over
all of them), so the flattening is faithful.  Exact arithmetic (`ℚ` where the
code needs only field operations, `ℝ` where it needs `exp`/`log`) stands in for
floating point.
-/

set_option linter.unusedVariables false

/-- A rank-1 tensor: one value per class. -/
abbrev T1 (α : Type) := List α

/-- A rank-2 tensor, e.g. `(B, C)` confusion sums or a flattened `(V, C)` logit view. -/
abbrev T2 (α : Type) := List (List α)

/-- A `(B, C, N)` tensor: batch of per-class rows over the flattened spatial axis. -/
abbrev T3 (α : Type) := List (List (List α))

/-- `torch.Tensor.mean()` on a tensor viewed as the flat list of its entries:
sum divided by the number of entries. -/
def meanL {α : Type} [DivisionRing α] (l : List α) : α := l.sum / (l.length : α)

/-- Ternary pointwise combination of equally shaped rank-1 tensors (elementwise
torch arithmetic such as `(2*tp + s) / (2*tp + fp + fn + s)`). -/
def zipWith3 {α β γ δ : Type} (f : α → β → γ → δ) : List α → List β → List γ → List δ
  | a :: as, b :: bs, c :: cs => f a b c :: zipWith3 f as bs cs
  | _, _, _ => []

/-- Pointwise unary operation on a `(B, C, N)` tensor. -/
def map3d {α : Type} (f : α → α) (t : T3 α) : T3 α :=
  t.map (fun s => s.map (fun r => r.map f))

/-- Pointwise binary operation on two `(B, C, N)` tensors (elementwise torch
arithmetic; operand shapes agree in every use the library makes). -/
def map3d2 {α : Type} (f : α → α → α) (t u : T3 α) : T3 α :=
  List.zipWith (List.zipWith (List.zipWith f)) t u

/-- `shp_x[1]`, the class-axis length of a `(B, C, N)` tensor. -/
def numClasses {α : Type} (t : T3 α) : ℕ := (t.headD []).length

/-- Ground truth as consumed by the losses.  `Loss.py` distinguishes a label map
from an already-one-hot tensor by comparing tensor shapes (lines 156-168 and the
identical inlined copies); the embedding makes that distinction explicit in the
type: `onehot` is the shapes-agree branch, `labels` the scatter branch with the
`(B, 1, N)`/`(B, N)` label map reduced to its `(B, N)` content. -/
inductive GroundTruth (α : Type) where
  | onehot (t : T3 α)
  | labels (l : T2 ℕ)

/-- The scatter branch (lines 164-168): `y_onehot = zeros(shp_x); y_onehot.scatter_(1, gt, 1)`,
i.e. a one at each location's label index, zero elsewhere.  `torch.scatter_` asserts on an
out-of-range index; labels are in `[0, C)` in every claim considered. -/
def scatterOneHot {α : Type} [Zero α] [One α] (C : ℕ) (labels : T2 ℕ) : T3 α :=
  labels.map (fun row => (List.range C).map (fun c => row.map (fun t => if t = c then (1 : α) else 0)))

/-- One-hot reconciliation of a ground truth against a prediction of shape `shp_x`. -/
def resolveOneHot {α : Type} [Zero α] [One α] (net_output : T3 α) (gt : GroundTruth α) : T3 α :=
  match gt with
  | .onehot t => t
  | .labels l => scatterOneHot (numClasses net_output) l

/-- `torch.unbind(t, dim=1)`: the per-class `(B, N)` slices of a `(B, C, N)` tensor. -/
def unbind1 {α : Type} (t : T3 α) : List (T2 α) :=
  (List.range (numClasses t)).map (fun c => t.map (fun sample => sample.getD c []))

/-- `torch.stack(slices, dim=1)`: reassemble per-class `(B, N)` slices into a `(B, C, N)`
tensor; entry `(b, c, n)` of the result is entry `(b, n)` of slice `c`. -/
def stack1 {α : Type} (slices : List (T2 α)) : T3 α :=
  (List.range (slices.headD []).length).map (fun b => slices.map (fun sl => sl.getD b []))

/-- `mask[:, 0]`: the single channel of a `(B, 1, N)` mask tensor. -/
def maskChannel {α : Type} (mask : T3 α) : T2 α := mask.map (fun s => s.getD 0 [])

/-- Lines 175-177 of `get_tp_fp_fn`:
`torch.stack(tuple(x_i * mask[:, 0] for x_i in torch.unbind(x, dim=1)), dim=1)`. -/
def applyMask {α : Type} [Mul α] (t mask : T3 α) : T3 α :=
  stack1 ((unbind1 t).map
    (fun sl => List.zipWith (fun row mrow => List.zipWith (fun a b => a * b) row mrow) sl (maskChannel mask)))

/-- Lines 156-182 of `get_tp_fp_fn`: one-hot reconciliation, the pointwise confusion maps
`tp = net_output * y_onehot`, `fp = net_output * (1 - y_onehot)`,
`fn = (1 - net_output) * y_onehot`, then the optional mask multiplication and the
optional pointwise squaring, in that order. -/
def confusionMaps {α : Type} [Field α] (net_output : T3 α) (gt : GroundTruth α)
    (mask : Option (T3 α)) (square : Bool) : T3 α × T3 α × T3 α :=
  let y_onehot := resolveOneHot net_output gt
  let tp := map3d2 (fun a b => a * b) net_output y_onehot
  let fp := map3d2 (fun a b => a * (1 - b)) net_output y_onehot
  let fn := map3d2 (fun a b => (1 - a) * b) net_output y_onehot
  let tp := match mask with | none => tp | some m => applyMask tp m
  let fp := match mask with | none => fp | some m => applyMask fp m
  let fn := match mask with | none => fn | some m => applyMask fn m
  let tp := if square then map3d (fun v => v ^ 2) tp else tp
  let fp := if square then map3d (fun v => v ^ 2) fp else fp
  let fn := if square then map3d (fun v => v ^ 2) fn else fn
  (tp, fp, fn)

/-- `sum_tensor(inp, axes)` with `axes = (2, ...)` (all spatial axes): one sum per
`(batch, class)` cell. -/
def sumSpatial {α : Type} [AddCommMonoid α] (t : T3 α) : T2 α := t.map (fun s => s.map List.sum)

/-- `sum_tensor(inp, axes)` with `axes = (0, 2, ...)`: `sum_tensor` sums the sorted axes
from the back, so this is the spatial sums further summed over the batch axis, one value
per class (the class count is read off axis 1). -/
def sumBatchSpatial {α : Type} [AddCommMonoid α] (t : T3 α) : T1 α :=
  (List.range (numClasses t)).map (fun c => ((sumSpatial t).map (fun row => row.getD c 0)).sum)

/-- `get_tp_fp_fn` (lines 138-188) as called with `axes = list(range(2, rank))`
(`batch_dice=False`): `(B, C)` confusion sums. -/
def get_tp_fp_fn {α : Type} [Field α] (net_output : T3 α) (gt : GroundTruth α)
    (mask : Option (T3 α)) (square : Bool) : T2 α × T2 α × T2 α :=
  let (tp, fp, fn) := confusionMaps net_output gt mask square
  (sumSpatial tp, sumSpatial fp, sumSpatial fn)

/-- `get_tp_fp_fn` as called with `axes = [0] + list(range(2, rank))` (`batch_dice=True`):
per-class confusion sums pooled over the whole batch. -/
def get_tp_fp_fn_batch {α : Type} [Field α] (net_output : T3 α) (gt : GroundTruth α)
    (mask : Option (T3 α)) (square : Bool) : T1 α × T1 α × T1 α :=
  let (tp, fp, fn) := confusionMaps net_output gt mask square
  (sumBatchSpatial tp, sumBatchSpatial fp, sumBatchSpatial fn)

/-- `SoftDiceLoss.forward` (lines 373-396).  The tensor formula of line 386 is
shape-polymorphic; the embedding spells it out per `batch_dice` branch:
`(C,)` scores sliced as `dc[1:]`, or `(B, C)` scores sliced as `dc[:, 1:]`,
then `dc.mean()` over the remaining entries and `1 - dc`. -/
def SoftDiceLoss_forward {α : Type} [Field α] (apply_nonlin : Option (T3 α → T3 α))
    (batch_dice do_bg : Bool) (smooth : α) (square : Bool)
    (x : T3 α) (y : GroundTruth α) (loss_mask : Option (T3 α)) : α :=
  let x := match apply_nonlin with | none => x | some f => f x
  if batch_dice then
    let (tp, fp, fn) := get_tp_fp_fn_batch x y loss_mask square
    let dc := zipWith3 (fun tp fp fn => (2 * tp + smooth) / (2 * tp + fp + fn + smooth)) tp fp fn
    let dc := if do_bg then dc else dc.drop 1
    1 - meanL dc
  else
    let (tp, fp, fn) := get_tp_fp_fn x y loss_mask square
    let dc := zipWith3 (zipWith3 (fun tp fp fn => (2 * tp + smooth) / (2 * tp + fp + fn + smooth))) tp fp fn
    let dc := if do_bg then dc else dc.map (fun row => row.drop 1)
    1 - meanL dc.flatten

/-- `IoULoss.forward` (lines 414-436): `iou = (tp + s) / (tp + fp + fn + s)`, same slicing
and mean as soft dice, returned negated. -/
def IoULoss_forward {α : Type} [Field α] (apply_nonlin : Option (T3 α → T3 α))
    (batch_dice do_bg : Bool) (smooth : α) (square : Bool)
    (x : T3 α) (y : GroundTruth α) (loss_mask : Option (T3 α)) : α :=
  let x := match apply_nonlin with | none => x | some f => f x
  if batch_dice then
    let (tp, fp, fn) := get_tp_fp_fn_batch x y loss_mask square
    let iou := zipWith3 (fun tp fp fn => (tp + smooth) / (tp + fp + fn + smooth)) tp fp fn
    let iou := (if do_bg then iou else iou.drop 1);
    -(meanL iou)
  else
    let (tp, fp, fn) := get_tp_fp_fn x y loss_mask square
    let iou := zipWith3 (zipWith3 (fun tp fp fn => (tp + smooth) / (tp + fp + fn + smooth))) tp fp fn
    let iou := (if do_bg then iou else iou.map (fun row => row.drop 1));
    -(meanL iou.flatten)

/-- `TverskyLoss.forward` (lines 455-477) with the fixed `self.alpha = 0.3`,
`self.beta = 0.7`: `(tp + s) / (tp + 0.3*fp + 0.7*fn + s)`, sliced, meaned, negated. -/
def TverskyLoss_forward {α : Type} [Field α] (apply_nonlin : Option (T3 α → T3 α))
    (batch_dice do_bg : Bool) (smooth : α) (square : Bool)
    (x : T3 α) (y : GroundTruth α) (loss_mask : Option (T3 α)) : α :=
  let x := match apply_nonlin with | none => x | some f => f x
  let alpha : α := 3 / 10
  let beta : α := 7 / 10
  if batch_dice then
    let (tp, fp, fn) := get_tp_fp_fn_batch x y loss_mask square
    let tv := zipWith3 (fun tp fp fn => (tp + smooth) / (tp + alpha * fp + beta * fn + smooth)) tp fp fn
    let tv := (if do_bg then tv else tv.drop 1);
    -(meanL tv)
  else
    let (tp, fp, fn) := get_tp_fp_fn x y loss_mask square
    let tv := zipWith3 (zipWith3 (fun tp fp fn => (tp + smooth) / (tp + alpha * fp + beta * fn + smooth))) tp fp fn
    let tv := (if do_bg then tv else tv.map (fun row => row.drop 1));
    -(meanL tv.flatten)

/-- `AsymLoss.forward` (lines 512-534) with the fixed `self.beta = 1.5` and
`weight = beta^2 / (1 + beta^2)`: `(tp + s) / (tp + weight*fn + (1-weight)*fp + s)`. -/
def AsymLoss_forward {α : Type} [Field α] (apply_nonlin : Option (T3 α → T3 α))
    (batch_dice do_bg : Bool) (smooth : α) (square : Bool)
    (x : T3 α) (y : GroundTruth α) (loss_mask : Option (T3 α)) : α :=
  let x := match apply_nonlin with | none => x | some f => f x
  let beta : α := 3 / 2
  let weight : α := beta ^ 2 / (1 + beta ^ 2)
  if batch_dice then
    let (tp, fp, fn) := get_tp_fp_fn_batch x y loss_mask square
    let asym := zipWith3 (fun tp fp fn => (tp + smooth) / (tp + weight * fn + (1 - weight) * fp + smooth)) tp fp fn
    let asym := (if do_bg then asym else asym.drop 1);
    -(meanL asym)
  else
    let (tp, fp, fn) := get_tp_fp_fn x y loss_mask square
    let asym := zipWith3 (zipWith3 (fun tp fp fn => (tp + smooth) / (tp + weight * fn + (1 - weight) * fp + smooth))) tp fp fn
    let asym := (if do_bg then asym else asym.map (fun row => row.drop 1));
    -(meanL asym.flatten)

/-- `SSLoss.forward` (lines 314-356) with the fixed `self.r = 0.1`:
`squared_error = (y_onehot - net_output)^2`,
`specificity_part = sum(squared_error*y_onehot)/(sum(y_onehot)+s)`,
`sensitivity_part = sum(squared_error*(1-y_onehot))/(sum(1-y_onehot)+s)`,
`ss = r*specificity + (1-r)*sensitivity`, sliced like the dice family, then meaned. -/
def SSLoss_forward {α : Type} [Field α] (apply_nonlin : Option (T3 α → T3 α))
    (batch_dice do_bg : Bool) (smooth : α)
    (net_output : T3 α) (gt : GroundTruth α) : α :=
  let y_onehot := resolveOneHot net_output gt
  let x := match apply_nonlin with | none => net_output | some f => f net_output
  let r : α := 1 / 10
  let bg_onehot := map3d (fun v => 1 - v) y_onehot
  let squared_error := map3d2 (fun y x => (y - x) ^ 2) y_onehot x
  if batch_dice then
    let specificity_part := List.zipWith (fun a b => a / (b + smooth))
      (sumBatchSpatial (map3d2 (fun a b => a * b) squared_error y_onehot)) (sumBatchSpatial y_onehot)
    let sensitivity_part := List.zipWith (fun a b => a / (b + smooth))
      (sumBatchSpatial (map3d2 (fun a b => a * b) squared_error bg_onehot)) (sumBatchSpatial bg_onehot)
    let ss := List.zipWith (fun sp se => r * sp + (1 - r) * se) specificity_part sensitivity_part
    let ss := if do_bg then ss else ss.drop 1
    meanL ss
  else
    let specificity_part := List.zipWith (List.zipWith (fun a b => a / (b + smooth)))
      (sumSpatial (map3d2 (fun a b => a * b) squared_error y_onehot)) (sumSpatial y_onehot)
    let sensitivity_part := List.zipWith (List.zipWith (fun a b => a / (b + smooth)))
      (sumSpatial (map3d2 (fun a b => a * b) squared_error bg_onehot)) (sumSpatial bg_onehot)
    let ss := List.zipWith (List.zipWith (fun sp se => r * sp + (1 - r) * se)) specificity_part sensitivity_part
    let ss := if do_bg then ss else ss.map (fun row => row.drop 1)
    meanL ss.flatten

/-- `softmax_helper` (lines 117-123): classwise softmax.  Per voxel: subtract the class
maximum, exponentiate, normalize by the sum over classes. -/
noncomputable def softmaxVec (v : List ℝ) : List ℝ :=
  let x_max := v.foldr max (v.headD 0)
  let e_x := v.map (fun x => Real.exp (x - x_max))
  e_x.map (fun e => e / e_x.sum)

/-- `softmax_helper` on a `(B, C, N)` tensor: the class axis operations of lines 117-123
act per voxel, i.e. on each column of each sample's `(C, N)` block. -/
noncomputable def softmax_helper (x : T3 ℝ) : T3 ℝ :=
  x.map (fun sample => ((sample.transpose).map softmaxVec).transpose)

/-- The per-voxel categorical cross-entropy computed by `torch.nn.CrossEntropyLoss` on a
row of `C` raw logits and an integer label: `log (sum_j exp v_j) - v_t`. -/
noncomputable def ceVoxel (v : List ℝ) (t : ℕ) : ℝ :=
  Real.log ((v.map Real.exp).sum) - v.getD t 0

/-- Lines 625-636 (and their verbatim copies at 671-682, 722-733, 802-811): the iterated
pairwise transposes move the class axis to the last position, and `.view(-1, num_classes)`
then yields one row of `C` logits per voxel, batch-major.  On the `(B, C, N)` embedding this
is the per-sample transpose to `(N, C)`, concatenated over the batch. -/
def voxelRows {α : Type} (inp : T3 α) : T2 α := (inp.map List.transpose).flatten

/-- The unreduced per-voxel cross-entropy vector (`CrossEntropyLoss` with `reduce=False`)
of the flattened logit rows against the flattened integer target. -/
noncomputable def ceList (inp : T3 ℝ) (target : T2 ℕ) : List ℝ :=
  List.zipWith ceVoxel (voxelRows inp) target.flatten

/-- `CrossentropyND.forward` (lines 616-638): flattened cross-entropy with the default
`reduction='mean'` over all voxels. -/
noncomputable def CrossentropyND_forward (inp : T3 ℝ) (target : T2 ℕ) : ℝ :=
  meanL (ceList inp target)

/-- `torch.topk(res, k, sorted=False, largest=True)`: some enumeration of the `k` largest
entries (embedded as the first `k` of a descending sort; `TopKLoss` only takes the mean of
the result, which is tie-break-independent). -/
noncomputable def topk (k : ℕ) (l : List ℝ) : List ℝ :=
  (List.insertionSort (fun a b => a ≥ b) l).take k

/-- `TopKLoss.forward` (lines 641-655): `target[:, 0]`, unreduced per-voxel cross-entropy,
keep the `int(num_voxels * k / 100)` largest per-voxel losses, return their mean.
`k` is the percentage hyperparameter `self.k`. -/
noncomputable def TopKLoss_forward (k : ℕ) (inp : T3 ℝ) (target : T3 ℕ) : ℝ :=
  let tgt : T2 ℕ := target.map (fun s => s.getD 0 [])
  let res := ceList inp tgt
  let num_voxels := res.length
  meanL (topk (num_voxels * k / 100) res)

/-- `WeightedCrossEntropyLossV2.forward` (lines 695-735).  The hard-coded CUDA weight
tensor `[0.2, 0.8]` is built (line 717) but never passed on: line 735 calls
`F.cross_entropy(net_output, gt)` with the weight argument commented out, and the
flattening above it is the verbatim `CrossentropyND` pipeline. -/
noncomputable def WeightedCrossEntropyLossV2_forward (net_output : T3 ℝ) (gt : T2 ℕ) : ℝ :=
  let class_weights : List ℝ := [0.2, 0.8]
  meanL (ceList net_output gt)

/-- `DC_and_CE_loss.forward` (lines 544-551) with the constructor wiring of lines 537-542:
the dice term uses `softmax_helper`, the CE term the raw logits; the losses are computed
first, then `aggregate == "sum"` returns their sum and anything else raises
`NotImplementedError("nah son")`. -/
noncomputable def DC_and_CE_loss_forward (aggregate : String)
    (batch_dice do_bg : Bool) (smooth : ℝ) (square : Bool)
    (net_output : T3 ℝ) (target : T2 ℕ) : Except String ℝ :=
  let dc_loss := SoftDiceLoss_forward (some softmax_helper) batch_dice do_bg smooth square
    net_output (GroundTruth.labels target) none
  let ce_loss := CrossentropyND_forward net_output target
  if aggregate = "sum" then Except.ok (ce_loss + dc_loss) else Except.error "nah son"

/-- `DC_and_topk_loss.forward` (lines 578-585) with the wiring of lines 571-576.  The
dice term one-hot-scatters the `(B, 1, N)` label map, which reads exactly its single
channel, so the dice ground truth is the same `(B, N)` label content `TopKLoss` uses. -/
noncomputable def DC_and_topk_loss_forward (aggregate : String)
    (batch_dice do_bg : Bool) (smooth : ℝ) (square : Bool) (k : ℕ)
    (net_output : T3 ℝ) (target : T3 ℕ) : Except String ℝ :=
  let dc_loss := SoftDiceLoss_forward (some softmax_helper) batch_dice do_bg smooth square
    net_output (GroundTruth.labels (target.map (fun s => s.getD 0 []))) none
  let ce_loss := TopKLoss_forward k net_output target
  if aggregate = "sum" then Except.ok (ce_loss + dc_loss) else Except.error "nah son"

/-- `np.max` of a flattened array (nonempty with a nonnegative maximum in every source
use: distance-transform values are nonnegative). -/
noncomputable def npMax (l : List ℝ) : ℝ := l.foldr max 0

/-- `compute_edts_forPenalizedLoss` (lines 763-778).  The Euclidean distance transform
itself comes from scipy (`distance_transform_edt`, external to this repository) and is the
function parameter `edt`, applied to each sample's flattened binary mask; the surrounding
arithmetic — region maximum minus the voxel's own distance, masked to the region, the two
regions' maps normalized by their maxima and added — is embedded.  `np.squeeze` is the
identity on the `(B, N)` layout used here. -/
noncomputable def compute_edts_forPenalizedLoss (edt : List Bool → List ℝ)
    (GT : List (List Bool)) : T2 ℝ :=
  GT.map (fun posmask =>
    let negmask := posmask.map (fun b => !b)
    let pos_edt0 := edt posmask
    let pos_edt := List.zipWith (fun d m => (npMax pos_edt0 - d) * (if m then 1 else 0)) pos_edt0 posmask
    let neg_edt0 := edt negmask
    let neg_edt := List.zipWith (fun d m => (npMax neg_edt0 - d) * (if m then 1 else 0)) neg_edt0 negmask
    List.zipWith (fun p n => p / npMax pos_edt + n / npMax neg_edt) pos_edt neg_edt)

/-- `log_softmax` of a row of logits (line 812-813): `v_j - log (sum_k exp v_k)`. -/
noncomputable def logSoftmaxVec (v : List ℝ) : List ℝ :=
  v.map (fun x => x - Real.log ((v.map Real.exp).sum))

/-- `DisPenalizedCE.forward` (lines 788-821): `dist` is the distance-transform multiplier
map of the thresholded target plus one, flattened (lines 791-797; `target > 0.5` on integer
labels is `0 < t`); `inp` is flattened to one logit row per voxel; the per-voxel loss is the
negative log-softmax entry at the target index (line 817); `weighted_loss = loss * dist` is
formed on line 819 and the function returns `loss.mean()` on line 821. -/
noncomputable def DisPenalizedCE_forward (edt : List Bool → List ℝ)
    (inp : T3 ℝ) (target : T2 ℕ) : ℝ :=
  let dist : List ℝ :=
    ((compute_edts_forPenalizedLoss edt (target.map (fun r => r.map (fun t => decide (0 < t))))).map
      (fun r => r.map (fun d => d + 1))).flatten
  let inp_logs := (voxelRows inp).map logSoftmaxVec
  let loss := List.zipWith (fun lv t => -(lv.getD t 0)) inp_logs target.flatten
  let weighted_loss := List.zipWith (fun l d => l * d) loss dist
  meanL loss

/-- `F.relu`. -/
def relu (x : ℝ) : ℝ := max x 0

/-- `torch.sigmoid`. -/
noncomputable def sigmoid (x : ℝ) : ℝ := 1 / (1 + Real.exp (-x))

/-- A value inside the `kld_loss` computation: a python/0-dimensional scalar, or a `(B, K)`
tensor.  Binary arithmetic broadcasts a scalar against every entry of a tensor, exactly as
the mixed float/tensor arithmetic of lines 50-105 does. -/
inductive TV where
  | scalar : ℝ → TV
  | mat : T2 ℝ → TV

/-- Pointwise unary operation on a `kld_loss` value. -/
noncomputable def TV.map (f : ℝ → ℝ) : TV → TV
  | .scalar x => .scalar (f x)
  | .mat m => .mat (m.map (fun r => r.map f))

/-- Pointwise binary operation with scalar broadcasting on `kld_loss` values. -/
noncomputable def TV.map2 (f : ℝ → ℝ → ℝ) : TV → TV → TV
  | .scalar a, .scalar b => .scalar (f a b)
  | .scalar a, .mat m => .mat (m.map (fun r => r.map (fun b => f a b)))
  | .mat m, .scalar b => .mat (m.map (fun r => r.map (fun a => f a b)))
  | .mat m, .mat m2 => .mat (List.zipWith (List.zipWith f) m m2)

/-- The resolved distribution parameters of `kld_loss` right before line 104: posterior
mean/log-std/variance and prior mean/std/variance/log-std. -/
structure KldParams where
  mu1 : TV
  log_sigma1 : TV
  var1 : TV
  mu2 : ℝ
  sigma2 : ℝ
  var2 : ℝ
  log_sigma2 : ℝ

/-- Lines 48-102 of `kld_loss`: resolution of the posterior and prior parameters from the
four flags, in source order — posterior mean, posterior variance, prior mean, prior std —
with an unrecognized flag value raising `NotImplementedError` (`Except.error`).
`mu1`/`logvar1` come in as `(B, K)` tensors and `mu2`/`std2` as scalars (their defaults
`0.5` and `0.125` are python floats); flag branches producing python or 0-dimensional
scalars yield `TV.scalar` values, broadcast by the later arithmetic.  The python `min` of
line 70 is well-defined only when its operands are scalars (comparing multi-element tensors
raises); the elementwise `min` used here coincides with it on that domain. -/
noncomputable def kld_params (raw_output : List ℝ) (mu1 : T2 ℝ) (logvar1 : T2 ℝ)
    (mu2 std2 : ℝ) (flag_mu1 flag_std1 flag_mu2 flag_std2 : ℕ) : Except Unit KldParams := do
  let gamma : ℝ := 2
  let mu1v : TV ←
    match flag_mu1 with
    | 0 => pure (TV.mat (mu1.map (fun r => r.map relu)))
    | 1 => pure (TV.scalar (meanL (raw_output.map sigmoid)))
    | 2 => pure (TV.scalar mu2)
    | _ => throw ()
  let p1 : TV × TV ←
    match flag_std1 with
    | 0 => pure (TV.mat (logvar1.map (fun r => r.map (fun l => 0.5 * l))),
                 TV.mat (logvar1.map (fun r => r.map Real.exp)))
    | 1 =>
        let std_upper := mu1v.map (fun m => (1 - m) / gamma)
        let std_lower := mu1v.map (fun m => (m - 0) / gamma)
        let sigma1 := TV.map2 min std_lower std_upper
        let var1 := sigma1.map (fun s => s ^ 2)
        pure (var1.map (fun v => 0.5 * Real.log v), var1)
    | 2 => pure (TV.scalar (0.5 * Real.log (std2 ^ 2)), TV.scalar (std2 ^ 2))
    | _ => throw ()
  let mu2v : ℝ ←
    match flag_mu2 with
    | 0 => pure mu2
    | 1 => pure (meanL (raw_output.map sigmoid))
    | _ => throw ()
  let sigma2 : ℝ ←
    match flag_std2 with
    | 0 => pure std2
    | 1 => pure (min ((mu2v - 0) / gamma) ((1 - mu2v) / gamma))
    | _ => throw ()
  pure { mu1 := mu1v, log_sigma1 := p1.1, var1 := p1.2, mu2 := mu2v,
         sigma2 := sigma2, var2 := sigma2 ^ 2, log_sigma2 := Real.log sigma2 }

/-- `torch.mean(torch.sum(loss, dim=-1), dim=0)` (line 105): row sums then batch mean on a
`(B, K)` tensor; the identity on a scalar (both reductions keep a 0-dimensional tensor). -/
noncomputable def TV.sumLastMeanBatch : TV → ℝ
  | .scalar x => x
  | .mat m => meanL (m.map List.sum)

/-- `kld_loss` (lines 19-114): the returned loss (first output), i.e. line 104's
`log_sigma2 - log_sigma1 + 0.5 * (var1 + (mu1 - mu2)**2) / var2 - 0.5` reduced by
line 105.  The second output, the reparameterized threshold sample of lines 107-114,
draws fresh Gaussian noise and is not embedded; no claim concerns it. -/
noncomputable def kld_loss (raw_output : List ℝ) (mu1 : T2 ℝ) (logvar1 : T2 ℝ)
    (mu2 std2 : ℝ) (flag_mu1 flag_std1 flag_mu2 flag_std2 : ℕ) : Except Unit ℝ := do
  let p ← kld_params raw_output mu1 logvar1 mu2 std2 flag_mu1 flag_std1 flag_mu2 flag_std2
  let loss := TV.map2 (fun a b => a - b) (TV.scalar p.log_sigma2) p.log_sigma1
  let loss := TV.map2 (fun a b => a + b) loss
    ((TV.map2 (fun a b => a + b) p.var1
        ((TV.map2 (fun a b => a - b) p.mu1 (TV.scalar p.mu2)).map (fun d => d ^ 2))).map
      (fun v => 0.5 * v / p.var2))
  let loss := loss.map (fun v => v - 0.5)
  pure loss.sumLastMeanBatch

/-- The closed-form Gaussian-to-Gaussian KL divergence of the specification, with
`mu1' = relu(mu1)`, `sigma1 = exp(0.5*logvar1)`, `var1 = exp(logvar1)`:
`log(std2) - log(sigma1) + 0.5*(var1 + (mu1'-mu2)^2)/var2 - 0.5`, summed over the last
axis, then averaged over the batch axis. -/
noncomputable def kldClosedForm (mu1 logvar1 : T2 ℝ) (mu2 std2 : ℝ) : ℝ :=
  meanL (List.zipWith (fun mrow lrow =>
    (List.zipWith (fun m l =>
      Real.log std2 - Real.log (Real.exp (0.5 * l))
        + 0.5 * (Real.exp l + (relu m - mu2) ^ 2) / std2 ^ 2 - 0.5) mrow lrow).sum) mu1 logvar1)

/-- Entry `(b, c, n)` of a `(B, C, N)` tensor, with `0` for an out-of-range index. -/
def at3 {α : Type} [Zero α] (t : T3 α) (b c n : ℕ) : α := ((t.getD b []).getD c []).getD n 0

/-- Entry `(b, c)` of a `(B, C)` tensor, with `0` for an out-of-range index. -/
def at2 {α : Type} [Zero α] (t : T2 α) (b c : ℕ) : α := (t.getD b []).getD c 0

/-- A `(B, C, N)` tensor written out by explicit indexing: entry `(b, c, n)` is `f b c n`. -/
def idxT3 {α : Type} (B C : ℕ) (N : ℕ → ℕ → ℕ) (f : ℕ → ℕ → ℕ → α) : T3 α :=
  (List.range B).map (fun b => (List.range C).map (fun c => (List.range (N b c)).map (f b c)))

/-- The entries of a per-class score list with exactly the class-index-0 entry removed
(the specification's "sliced to indices 1..C-1"). -/
def dropClass0 {α : Type} (scores : List α) : List α :=
  (scores.enum.filter (fun p => p.1 != 0)).map Prod.snd

/-- The mask step of `get_tp_fp_fn` (lines 174-177): the unbind/stack mask multiplication
when a mask is present, the identity otherwise. -/
def maskStep (mopt : Option (T3 ℚ)) (t : T3 ℚ) : T3 ℚ :=
  match mopt with
  | none => t
  | some m => applyMask t m

/-- The squaring step of `get_tp_fp_fn` (lines 179-182): pointwise square when
`square = True`, the identity otherwise. -/
def sqStep (square : Bool) (t : T3 ℚ) : T3 ℚ :=
  if square then map3d (fun v => v ^ 2) t else t

/-- The scalar counterpart of `sqStep`. -/
def sqFun (square : Bool) : ℚ → ℚ :=
  if square then (fun v => v ^ 2) else id

/-- The multiplier a mask contributes at location `(b, n)`: the mask's channel-0 value
there, or `1` when no mask is given. -/
def maskVal (mopt : Option (T3 ℚ)) (b n : ℕ) : ℚ :=
  match mopt with
  | none => 1
  | some mk => ((mk.getD b []).getD 0 []).getD n 0

theorem meanL_perm {α : Type} [DivisionRing α] (l₁ l₂ : List α) (h : l₁.Perm l₂) :
    meanL l₁ = meanL l₂ := by
  unfold meanL
  rw [h.sum_eq, h.length_eq]

/-- C1: for every input pair, `DisPenalizedCE.forward` returns the mean of the per-voxel
negative-log-softmax loss without the distance-transform multiplier: the weighted product
`loss * dist` is computed in the body, but the returned scalar is the mean of the
unweighted per-voxel loss — here stated for every distance transform `edt`, so the result
is independent of the distance map altogether. -/
theorem C1_dispenalized_returns_unweighted_mean (edt : List Bool → List ℝ)
    (inp : T3 ℝ) (target : T2 ℕ) :
    DisPenalizedCE_forward edt inp target
      = meanL (List.zipWith (fun v t => -((logSoftmaxVec v).getD t 0))
          (voxelRows inp) target.flatten) := by
  simp [DisPenalizedCE_forward, List.zipWith_map_left]

/-- C7: `TopKLoss` with `k = 100` returns exactly the plain arithmetic mean of all
per-voxel unreduced cross-entropy losses: the top-k selection with count
`int(num_voxels * 100 / 100) = num_voxels` keeps every voxel. -/
theorem C7_topk_100_is_plain_mean (inp : T3 ℝ) (target : T3 ℕ) :
    TopKLoss_forward 100 inp target
      = meanL (ceList inp (target.map (fun s => s.getD 0 []))) := by
  have hfull : ∀ l : List ℝ, topk (l.length * 100 / 100) l
      = List.insertionSort (fun a b => a ≥ b) l := by
    intro l
    have h100 : l.length * 100 / 100 = l.length := Nat.mul_div_cancel _ (by norm_num)
    rw [topk, h100, ← List.length_insertionSort (fun a b => a ≥ b) l, List.take_length]
  simp only [TopKLoss_forward]
  rw [hfull]
  exact meanL_perm _ _ (List.perm_insertionSort _ _)

/-- C10: `WeightedCrossEntropyLossV2.forward` returns exactly the plain unweighted
cross-entropy of the flattened input against the flattened target; the constructed
`class_weights` tensor `[0.2, 0.8]` is never passed to the cross-entropy call and has
no effect on the returned value. -/
theorem C10_wce_v2_is_plain_ce (net_output : T3 ℝ) (gt : T2 ℕ) :
    WeightedCrossEntropyLossV2_forward net_output gt
      = CrossentropyND_forward net_output gt := rfl

/-- C9: `DC_and_CE_loss` and `DC_and_topk_loss` return `ce_loss + dc_loss` when
constructed with `aggregate = "sum"`, and raise `NotImplementedError` (no value) for
every other aggregate string. -/
theorem C9_aggregate_sum_or_error (aggregate : String) (batch_dice do_bg : Bool)
    (smooth : ℝ) (square : Bool) (k : ℕ)
    (net_output : T3 ℝ) (t2 : T2 ℕ) (t3 : T3 ℕ) :
    (DC_and_CE_loss_forward "sum" batch_dice do_bg smooth square net_output t2
      = Except.ok (CrossentropyND_forward net_output t2
          + SoftDiceLoss_forward (some softmax_helper) batch_dice do_bg smooth square
              net_output (GroundTruth.labels t2) none))
    ∧ (DC_and_topk_loss_forward "sum" batch_dice do_bg smooth square k net_output t3
      = Except.ok (TopKLoss_forward k net_output t3
          + SoftDiceLoss_forward (some softmax_helper) batch_dice do_bg smooth square
              net_output (GroundTruth.labels (t3.map (fun s => s.getD 0 []))) none))
    ∧ (aggregate ≠ "sum" →
        DC_and_CE_loss_forward aggregate batch_dice do_bg smooth square net_output t2
          = Except.error "nah son")
    ∧ (aggregate ≠ "sum" →
        DC_and_topk_loss_forward aggregate batch_dice do_bg smooth square k net_output t3
          = Except.error "nah son") := by
  refine ⟨rfl, rfl, fun h => ?_, fun h => ?_⟩
  · simp [DC_and_CE_loss_forward, h]
  · simp [DC_and_topk_loss_forward, h]

theorem C9_witness :
    ("mean" ≠ "sum" → DC_and_CE_loss_forward "mean" false true 1 false [] []
        = Except.error "nah son")
    ∧ ("mean" : String) ≠ "sum"
    ∧ DC_and_CE_loss_forward "mean" false true 1 false [] [] = Except.error "nah son" :=
  have h := C9_aggregate_sum_or_error "mean" false true 1 false 10 [] [] []
  ⟨h.2.2.1, by decide, h.2.2.1 (by decide)⟩

theorem except_error_bind {ε α β : Type} (f : α → Except ε β) (e : ε) :
    (Except.error e >>= f) = Except.error e := rfl

theorem except_ok_bind {ε α β : Type} (f : α → Except ε β) (a : α) :
    (Except.ok a >>= f) = f a := rfl

/-- C8: `kld_loss` raises `NotImplementedError` (and produces no value) whenever any flag
is outside its enumerated set — `flag_mu1 ∉ {0,1,2}`, `flag_std1 ∉ {0,1,2}`,
`flag_mu2 ∉ {0,1}`, or `flag_std2 ∉ {0,1}` — and never substitutes a default behaviour. -/
theorem C8_invalid_flag_errors (raw_output : List ℝ) (mu1 logvar1 : T2 ℝ)
    (mu2 std2 : ℝ) (f1 f2 f3 f4 : ℕ)
    (h : ¬(f1 = 0 ∨ f1 = 1 ∨ f1 = 2) ∨ ¬(f2 = 0 ∨ f2 = 1 ∨ f2 = 2)
       ∨ ¬(f3 = 0 ∨ f3 = 1) ∨ ¬(f4 = 0 ∨ f4 = 1)) :
    kld_loss raw_output mu1 logvar1 mu2 std2 f1 f2 f3 f4 = Except.error () := by
  have herr : kld_params raw_output mu1 logvar1 mu2 std2 f1 f2 f3 f4 = Except.error () := by
    rcases h with h | h | h | h
    · obtain ⟨m, rfl⟩ : ∃ m, f1 = m + 3 := ⟨f1 - 3, by omega⟩
      simp [kld_params, throw, throwThe, MonadExceptOf.throw, except_error_bind]
    · obtain ⟨m, rfl⟩ : ∃ m, f2 = m + 3 := ⟨f2 - 3, by omega⟩
      rcases f1 with _ | _ | _ | f1 <;>
        simp [kld_params, throw, throwThe, MonadExceptOf.throw, except_error_bind,
          except_ok_bind, pure, Except.pure]
    · obtain ⟨m, rfl⟩ : ∃ m, f3 = m + 2 := ⟨f3 - 2, by omega⟩
      rcases f1 with _ | _ | _ | f1 <;> rcases f2 with _ | _ | _ | f2 <;>
        simp [kld_params, throw, throwThe, MonadExceptOf.throw, except_error_bind,
          except_ok_bind, pure, Except.pure]
    · obtain ⟨m, rfl⟩ : ∃ m, f4 = m + 2 := ⟨f4 - 2, by omega⟩
      rcases f1 with _ | _ | _ | f1 <;> rcases f2 with _ | _ | _ | f2 <;>
        rcases f3 with _ | _ | f3 <;>
        simp [kld_params, throw, throwThe, MonadExceptOf.throw, except_error_bind,
          except_ok_bind, pure, Except.pure]
  simp [kld_loss, herr, except_error_bind]

theorem C8_witness :
    (¬((3 : ℕ) = 0 ∨ (3 : ℕ) = 1 ∨ (3 : ℕ) = 2))
    ∧ kld_loss [] [] [] 0 0 3 0 0 0 = Except.error () :=
  ⟨by decide, C8_invalid_flag_errors [] [] [] 0 0 3 0 0 0 (Or.inl (by decide))⟩

/-- C2 counterexample: calling `kld_loss` with `flag_mu1 = 2` and `flag_mu2 = 1` (raw
output `[0]`, `mu2` argument `1/4`) resolves the posterior mean used in the KL divergence
to the `mu2` argument `1/4` — the `flag_mu1` block runs before the `flag_mu2` block — while
the prior mean used is the sigmoid-derived `1/2`, and `1/4 ≠ 1/2`; so the claim that the
posterior mean equals the prior mean for every setting of `flag_mu2` is false. -/
theorem C2_counterexample :
    (kld_params [0] [[1]] [[0]] (1/4) (1/8) 2 0 1 0).map (fun p => (p.mu1, p.mu2))
      = Except.ok (TV.scalar (1/4), 1/2)
    ∧ ((1 : ℝ)/4) ≠ 1/2 := by
  constructor
  · simp [kld_params, except_ok_bind, pure, Except.pure, sigmoid, meanL, Real.exp_zero,
      Except.map]
    norm_num
  · norm_num

/-- C2 (amended): with `flag_mu1 = 2` the posterior mean used in the KL divergence is the
`mu2` argument, which equals the prior mean used only when `flag_mu2 = 0`; with
`flag_mu2 = 1` the prior mean is recomputed from the sigmoid-transformed raw output after
the posterior mean is already fixed, and the two generally differ. -/
theorem C2_amended_posterior_mean (raw_output : List ℝ) (mu1 logvar1 : T2 ℝ)
    (mu2 std2 : ℝ) (f2 f4 : ℕ) (p : KldParams)
    (h : kld_params raw_output mu1 logvar1 mu2 std2 2 f2 0 f4 = Except.ok p) :
    p.mu1 = TV.scalar mu2 ∧ p.mu2 = mu2 := by
  rcases f2 with _ | _ | _ | f2 <;> rcases f4 with _ | _ | f4 <;>
    simp [kld_params, except_ok_bind, except_error_bind, pure, Except.pure, throw, throwThe,
      MonadExceptOf.throw] at h <;>
    subst h <;> simp

theorem C2_amended_witness :
    kld_params [] [] [] (1/2) (1/8) 2 2 0 0 = Except.ok
      { mu1 := TV.scalar (1/2), log_sigma1 := TV.scalar (0.5 * Real.log ((1/8 : ℝ) ^ 2)),
        var1 := TV.scalar ((1/8 : ℝ) ^ 2), mu2 := 1/2, sigma2 := 1/8,
        var2 := (1/8 : ℝ) ^ 2, log_sigma2 := Real.log (1/8) }
    ∧ (KldParams.mu1
        { mu1 := TV.scalar (1/2), log_sigma1 := TV.scalar (0.5 * Real.log ((1/8 : ℝ) ^ 2)),
          var1 := TV.scalar ((1/8 : ℝ) ^ 2), mu2 := 1/2, sigma2 := 1/8,
          var2 := (1/8 : ℝ) ^ 2, log_sigma2 := Real.log (1/8) } = TV.scalar (1/2)
      ∧ KldParams.mu2
        { mu1 := TV.scalar (1/2), log_sigma1 := TV.scalar (0.5 * Real.log ((1/8 : ℝ) ^ 2)),
          var1 := TV.scalar ((1/8 : ℝ) ^ 2), mu2 := 1/2, sigma2 := 1/8,
          var2 := (1/8 : ℝ) ^ 2, log_sigma2 := Real.log (1/8) } = (1/2 : ℝ)) :=
  ⟨rfl, C2_amended_posterior_mean [] [] [] (1/2) (1/8) 2 0 _ rfl⟩

theorem zipWith_same_left {α β γ δ : Type} (f : α → γ → δ) (g : α → β → γ) :
    ∀ (l : List α) (m : List β),
      List.zipWith f l (List.zipWith g l m) = List.zipWith (fun a b => f a (g a b)) l m
  | [], _ => rfl
  | _ :: _, [] => rfl
  | a :: l, b :: m => by
      simp only [List.zipWith_cons_cons]
      exact congrArg _ (zipWith_same_left f g l m)

/-- C3: with `flag_mu1 = flag_std1 = flag_mu2 = flag_std2 = 0`, `kld_loss` returns exactly
the closed-form 1-D Gaussian-to-Gaussian KL divergence
`log(std2) - log(sigma1) + 0.5*(var1 + (mu1'-mu2)^2)/var2 - 0.5` with `mu1' = relu(mu1)`,
`sigma1 = exp(0.5*logvar1)`, `var1 = exp(logvar1)`, summed over the last axis and averaged
over the batch axis. -/
theorem C3_kld_allzero_closed_form (raw_output : List ℝ) (mu1 logvar1 : T2 ℝ)
    (mu2 std2 : ℝ) :
    kld_loss raw_output mu1 logvar1 mu2 std2 0 0 0 0
      = Except.ok (kldClosedForm mu1 logvar1 mu2 std2) := by
  simp only [kld_loss, kld_params, except_ok_bind, pure, Except.pure, TV.map2, TV.map,
    TV.sumLastMeanBatch, kldClosedForm]
  refine congrArg Except.ok (congrArg meanL ?_)
  simp only [List.map_map, List.map_zipWith, List.zipWith_map_left, List.zipWith_map_right,
    zipWith_same_left]
  conv_rhs => rw [List.zipWith_comm]
  congr 1
  funext lrow mrow
  simp only [List.map_map, List.map_zipWith, List.zipWith_map_left, List.zipWith_map_right,
    zipWith_same_left, Function.comp]
  conv_rhs => rw [List.zipWith_comm]
  have hf : (fun (b : ℝ) (a : ℝ) =>
        Real.log std2 - Real.log (Real.exp (0.5 * b))
          + 0.5 * (Real.exp b + (relu a - mu2) ^ 2) / std2 ^ 2 - 0.5)
      = (fun (a : ℝ) (b : ℝ) =>
        Real.log std2 - 0.5 * a + 0.5 * (Real.exp a + (relu b - mu2) ^ 2) / std2 ^ 2 - 0.5) := by
    funext l m
    rw [Real.log_exp]
  rw [hf]

theorem enumFrom_filter_pos {α : Type} : ∀ (n : ℕ) (l : List α), 0 < n →
    (List.enumFrom n l).filter (fun p => p.1 != 0) = List.enumFrom n l
  | _, [], _ => rfl
  | n, a :: l, h => by
      have hn : ((n, a).1 != 0) = true := by simpa using Nat.pos_iff_ne_zero.mp h
      simp only [List.enumFrom, List.filter_cons, hn, if_true]
      rw [enumFrom_filter_pos (n + 1) l (Nat.succ_pos n)]

theorem dropClass0_eq {α : Type} (l : List α) : dropClass0 l = l.drop 1 := by
  cases l with
  | nil => rfl
  | cons a t =>
      show dropClass0 (a :: t) = t
      unfold dropClass0
      rw [List.enum_cons]
      rw [List.filter_cons]
      simp only [show (((0 : ℕ), a).1 != 0) = false from rfl, if_false, Bool.false_eq_true]
      rw [enumFrom_filter_pos 1 t (by norm_num), List.enumFrom_map_snd]

theorem map_dropClass0 {α : Type} (ll : List (List α)) :
    ll.map dropClass0 = ll.map (fun r => r.drop 1) :=
  List.map_congr_left (fun l _ => dropClass0_eq l)

/-- C6: with `do_bg = False`, each of `SoftDiceLoss`, `IoULoss`, `TverskyLoss`, `AsymLoss`
and `SSLoss` excludes exactly the class-index-0 entries from the final mean: with
`batch_dice=True` the `(C,)` per-class score list is sliced to indices `1..C-1`, with
`batch_dice=False` the `(B, C)` scores are sliced to columns `1..C-1`, and the returned
value is the mean over the remaining entries only (here the slicing is stated as a filter
keeping exactly the nonzero class indices).  Stated for the prediction after the optional
nonlinearity, which the source applies before any of this. -/
theorem C6_do_bg_false_drops_class0 (smooth : ℚ) (square : Bool) (x : T3 ℚ)
    (y : GroundTruth ℚ) (mask : Option (T3 ℚ)) :
    (SoftDiceLoss_forward none true false smooth square x y mask
      = 1 - meanL (dropClass0 (zipWith3
          (fun tp fp fn => (2 * tp + smooth) / (2 * tp + fp + fn + smooth))
          (get_tp_fp_fn_batch x y mask square).1
          (get_tp_fp_fn_batch x y mask square).2.1
          (get_tp_fp_fn_batch x y mask square).2.2)))
    ∧ (SoftDiceLoss_forward none false false smooth square x y mask
      = 1 - meanL ((zipWith3 (zipWith3
          (fun tp fp fn => (2 * tp + smooth) / (2 * tp + fp + fn + smooth)))
          (get_tp_fp_fn x y mask square).1
          (get_tp_fp_fn x y mask square).2.1
          (get_tp_fp_fn x y mask square).2.2).map dropClass0).flatten)
    ∧ (IoULoss_forward none true false smooth square x y mask
      = -meanL (dropClass0 (zipWith3
          (fun tp fp fn => (tp + smooth) / (tp + fp + fn + smooth))
          (get_tp_fp_fn_batch x y mask square).1
          (get_tp_fp_fn_batch x y mask square).2.1
          (get_tp_fp_fn_batch x y mask square).2.2)))
    ∧ (IoULoss_forward none false false smooth square x y mask
      = -meanL ((zipWith3 (zipWith3
          (fun tp fp fn => (tp + smooth) / (tp + fp + fn + smooth)))
          (get_tp_fp_fn x y mask square).1
          (get_tp_fp_fn x y mask square).2.1
          (get_tp_fp_fn x y mask square).2.2).map dropClass0).flatten)
    ∧ (TverskyLoss_forward none true false smooth square x y mask
      = -meanL (dropClass0 (zipWith3
          (fun tp fp fn => (tp + smooth) / (tp + (3 : ℚ) / 10 * fp + (7 : ℚ) / 10 * fn + smooth))
          (get_tp_fp_fn_batch x y mask square).1
          (get_tp_fp_fn_batch x y mask square).2.1
          (get_tp_fp_fn_batch x y mask square).2.2)))
    ∧ (TverskyLoss_forward none false false smooth square x y mask
      = -meanL ((zipWith3 (zipWith3
          (fun tp fp fn => (tp + smooth) / (tp + (3 : ℚ) / 10 * fp + (7 : ℚ) / 10 * fn + smooth)))
          (get_tp_fp_fn x y mask square).1
          (get_tp_fp_fn x y mask square).2.1
          (get_tp_fp_fn x y mask square).2.2).map dropClass0).flatten)
    ∧ (AsymLoss_forward none true false smooth square x y mask
      = -meanL (dropClass0 (zipWith3
          (fun tp fp fn => (tp + smooth) / (tp + ((3 : ℚ) / 2) ^ 2 / (1 + ((3 : ℚ) / 2) ^ 2) * fn + (1 - ((3 : ℚ) / 2) ^ 2 / (1 + ((3 : ℚ) / 2) ^ 2)) * fp + smooth))
          (get_tp_fp_fn_batch x y mask square).1
          (get_tp_fp_fn_batch x y mask square).2.1
          (get_tp_fp_fn_batch x y mask square).2.2)))
    ∧ (AsymLoss_forward none false false smooth square x y mask
      = -meanL ((zipWith3 (zipWith3
          (fun tp fp fn => (tp + smooth) / (tp + ((3 : ℚ) / 2) ^ 2 / (1 + ((3 : ℚ) / 2) ^ 2) * fn + (1 - ((3 : ℚ) / 2) ^ 2 / (1 + ((3 : ℚ) / 2) ^ 2)) * fp + smooth)))
          (get_tp_fp_fn x y mask square).1
          (get_tp_fp_fn x y mask square).2.1
          (get_tp_fp_fn x y mask square).2.2).map dropClass0).flatten)
    ∧ (SSLoss_forward none true false smooth x y
      = meanL (dropClass0 (List.zipWith
          (fun sp se => (1 : ℚ) / 10 * sp + (1 - (1 : ℚ) / 10) * se)
          (List.zipWith (fun a b => a / (b + smooth))
            (sumBatchSpatial (map3d2 (fun a b => a * b)
              (map3d2 (fun yv xv => (yv - xv) ^ 2) (resolveOneHot x y) x)
              (resolveOneHot x y)))
            (sumBatchSpatial (resolveOneHot x y)))
          (List.zipWith (fun a b => a / (b + smooth))
            (sumBatchSpatial (map3d2 (fun a b => a * b)
              (map3d2 (fun yv xv => (yv - xv) ^ 2) (resolveOneHot x y) x)
              (map3d (fun v => 1 - v) (resolveOneHot x y))))
            (sumBatchSpatial (map3d (fun v => 1 - v) (resolveOneHot x y)))))))
    ∧ (SSLoss_forward none false false smooth x y
      = meanL ((List.zipWith (List.zipWith
          (fun sp se => (1 : ℚ) / 10 * sp + (1 - (1 : ℚ) / 10) * se))
          (List.zipWith (List.zipWith (fun a b => a / (b + smooth)))
            (sumSpatial (map3d2 (fun a b => a * b)
              (map3d2 (fun yv xv => (yv - xv) ^ 2) (resolveOneHot x y) x)
              (resolveOneHot x y)))
            (sumSpatial (resolveOneHot x y)))
          (List.zipWith (List.zipWith (fun a b => a / (b + smooth)))
            (sumSpatial (map3d2 (fun a b => a * b)
              (map3d2 (fun yv xv => (yv - xv) ^ 2) (resolveOneHot x y) x)
              (map3d (fun v => 1 - v) (resolveOneHot x y))))
            (sumSpatial (map3d (fun v => 1 - v) (resolveOneHot x y))))).map dropClass0).flatten) := by
  simp only [dropClass0_eq, map_dropClass0]
  exact ⟨rfl, rfl, rfl, rfl, rfl, rfl, rfl, rfl, rfl, rfl⟩

theorem getD_of_all {α : Type} (P : α → Prop) (d : α) (hd : P d) :
    ∀ (l : List α) (n : ℕ), (∀ v ∈ l, P v) → P (l.getD n d)
  | [], n, _ => by simpa [List.getD] using hd
  | a :: l, 0, h => h a (List.mem_cons_self a l)
  | a :: l, n + 1, h =>
      getD_of_all P d hd l n (fun v hv => h v (List.mem_cons_of_mem a hv))

theorem zipWith3_mem {α β γ δ : Type} (g : α → β → γ → δ) :
    ∀ (la : List α) (lb : List β) (lc : List γ) (v : δ), v ∈ zipWith3 g la lb lc →
      ∃ a, a ∈ la ∧ ∃ b, b ∈ lb ∧ ∃ c, c ∈ lc ∧ v = g a b c := by
  intro la
  induction la with
  | nil => intro lb lc v hv; simp [zipWith3] at hv
  | cons a as ih =>
      intro lb lc v hv
      cases lb with
      | nil => simp [zipWith3] at hv
      | cons b bs =>
          cases lc with
          | nil => simp [zipWith3] at hv
          | cons c cs =>
              rcases List.mem_cons.mp hv with h | h
              · exact ⟨a, List.mem_cons_self a as, b, List.mem_cons_self b bs,
                  c, List.mem_cons_self c cs, h⟩
              · obtain ⟨a', ha, b', hb, c', hc, rfl⟩ := ih bs cs v h
                exact ⟨a', List.mem_cons_of_mem a ha, b', List.mem_cons_of_mem b hb,
                  c', List.mem_cons_of_mem c hc, rfl⟩

theorem zipWith3_length {α β γ δ : Type} (g : α → β → γ → δ) :
    ∀ (la : List α) (lb : List β) (lc : List γ),
      (zipWith3 g la lb lc).length = min (min la.length lb.length) lc.length
  | [], lb, lc => by simp [zipWith3]
  | a :: as, [], lc => by simp [zipWith3]
  | a :: as, b :: bs, [] => by simp [zipWith3]
  | a :: as, b :: bs, c :: cs => by
      have := zipWith3_length g as bs cs
      simp only [zipWith3, List.length_cons, this]
      omega

theorem meanL_of_all_one (l : List ℚ) (h1 : ∀ v ∈ l, v = 1) (hne : l ≠ []) :
    meanL l = 1 := by
  have hsum : l.sum = l.length • (1 : ℚ) := List.sum_eq_card_nsmul l 1 h1
  have hlen : (l.length : ℚ) ≠ 0 := Nat.cast_ne_zero.mpr (by
    intro h0
    exact hne (List.length_eq_zero.mp h0))
  rw [meanL, hsum, nsmul_eq_mul, mul_one, div_self hlen]

theorem map3d2_self {α : Type} (f : α → α → α) (y : T3 α) :
    map3d2 f y y = map3d (fun v => f v v) y := by
  unfold map3d2 map3d
  rw [List.zipWith_same]
  apply List.map_congr_left
  intro s _
  rw [List.zipWith_same]
  apply List.map_congr_left
  intro r _
  rw [List.zipWith_same]

theorem confusionMaps_self (y : T3 ℚ) (sq : Bool) :
    confusionMaps y (GroundTruth.onehot y) none sq
      = ((if sq then map3d (fun v => (v * v) ^ 2) y else map3d (fun v => v * v) y),
         (if sq then map3d (fun v => (v * (1 - v)) ^ 2) y else map3d (fun v => v * (1 - v)) y),
         (if sq then map3d (fun v => ((1 - v) * v) ^ 2) y else map3d (fun v => (1 - v) * v) y)) := by
  unfold confusionMaps resolveOneHot
  simp only [map3d2_self]
  cases sq <;> simp [map3d, List.map_map, Function.comp]

theorem numClasses_map3d {α : Type} (f : α → α) (y : T3 α) :
    numClasses (map3d f y) = numClasses y := by
  cases y with
  | nil => rfl
  | cons s ys => simp [numClasses, map3d]

theorem sumSpatial_prop (P : ℚ → Prop)
    (hPsum : ∀ l : List ℚ, (∀ v ∈ l, P v) → P l.sum)
    (g : ℚ → ℚ) (y : T3 ℚ)
    (hent : ∀ smp ∈ y, ∀ r ∈ smp, ∀ v ∈ r, v = (0 : ℚ) ∨ v = 1)
    (hg : ∀ v, v = (0 : ℚ) ∨ v = 1 → P (g v)) :
    ∀ row ∈ sumSpatial (map3d g y), ∀ v ∈ row, P v := by
  intro row hrow v hv
  simp only [sumSpatial, map3d, List.mem_map] at hrow
  obtain ⟨s', ⟨smp, hsmp, rfl⟩, rfl⟩ := hrow
  simp only [List.map_map, List.mem_map, Function.comp] at hv
  obtain ⟨r, hr, rfl⟩ := hv
  apply hPsum
  intro u hu
  obtain ⟨u₀, hu₀, rfl⟩ := List.mem_map.mp hu
  exact hg u₀ (hent smp hsmp r hr u₀ hu₀)

theorem sumBatchSpatial_prop (P : ℚ → Prop) (hP0 : P 0)
    (hPsum : ∀ l : List ℚ, (∀ v ∈ l, P v) → P l.sum)
    (g : ℚ → ℚ) (y : T3 ℚ)
    (hent : ∀ smp ∈ y, ∀ r ∈ smp, ∀ v ∈ r, v = (0 : ℚ) ∨ v = 1)
    (hg : ∀ v, v = (0 : ℚ) ∨ v = 1 → P (g v)) :
    ∀ w ∈ sumBatchSpatial (map3d g y), P w := by
  intro w hw
  simp only [sumBatchSpatial, List.mem_map] at hw
  obtain ⟨c, _, rfl⟩ := hw
  apply hPsum
  intro x hx
  obtain ⟨row, hrow, rfl⟩ := List.mem_map.mp hx
  exact getD_of_all P 0 hP0 row c (sumSpatial_prop P hPsum g y hent hg row hrow)

theorem length_sumBatchSpatial {α : Type} [AddCommMonoid α] (t : T3 α) :
    (sumBatchSpatial t).length = numClasses t := by
  simp [sumBatchSpatial]

theorem C4_batch (y : T3 ℚ) (g1 g2 g3 : ℚ → ℚ) (gsc : ℚ → ℚ → ℚ → ℚ)
    (hent : ∀ smp ∈ y, ∀ r ∈ smp, ∀ v ∈ r, v = (0 : ℚ) ∨ v = 1)
    (hg1 : ∀ v, v = (0 : ℚ) ∨ v = 1 → 0 ≤ g1 v)
    (hg2 : ∀ v, v = (0 : ℚ) ∨ v = 1 → g2 v = 0)
    (hg3 : ∀ v, v = (0 : ℚ) ∨ v = 1 → g3 v = 0)
    (hgsc : ∀ a : ℚ, 0 ≤ a → gsc a 0 0 = 1)
    (k : ℕ) (hk : k + 1 ≤ numClasses y) :
    meanL ((zipWith3 gsc (sumBatchSpatial (map3d g1 y)) (sumBatchSpatial (map3d g2 y))
      (sumBatchSpatial (map3d g3 y))).drop k) = 1 := by
  have hones : ∀ v ∈ zipWith3 gsc (sumBatchSpatial (map3d g1 y))
      (sumBatchSpatial (map3d g2 y)) (sumBatchSpatial (map3d g3 y)), v = 1 := by
    intro v hv
    obtain ⟨a, ha, b, hb, c, hc, rfl⟩ := zipWith3_mem gsc _ _ _ v hv
    have hb0 : b = 0 := sumBatchSpatial_prop (· = 0) rfl
      (fun l h => List.sum_eq_zero h) g2 y hent hg2 b hb
    have hc0 : c = 0 := sumBatchSpatial_prop (· = 0) rfl
      (fun l h => List.sum_eq_zero h) g3 y hent hg3 c hc
    have ha0 : 0 ≤ a := sumBatchSpatial_prop (0 ≤ ·) le_rfl
      (fun l h => List.sum_nonneg h) g1 y hent hg1 a ha
    rw [hb0, hc0]
    exact hgsc a ha0
  have hlen : (zipWith3 gsc (sumBatchSpatial (map3d g1 y)) (sumBatchSpatial (map3d g2 y))
      (sumBatchSpatial (map3d g3 y))).length = numClasses y := by
    rw [zipWith3_length, length_sumBatchSpatial, length_sumBatchSpatial,
      length_sumBatchSpatial, numClasses_map3d, numClasses_map3d, numClasses_map3d]
    omega
  apply meanL_of_all_one
  · intro v hv
    exact hones v (List.mem_of_mem_drop hv)
  · rw [← List.length_pos, List.length_drop, hlen]
    omega

theorem C4_persample (y : T3 ℚ) (g1 g2 g3 : ℚ → ℚ) (gsc : ℚ → ℚ → ℚ → ℚ)
    (hent : ∀ smp ∈ y, ∀ r ∈ smp, ∀ v ∈ r, v = (0 : ℚ) ∨ v = 1)
    (hB : y ≠ [])
    (hC : ∀ smp ∈ y, smp.length = numClasses y)
    (hg1 : ∀ v, v = (0 : ℚ) ∨ v = 1 → 0 ≤ g1 v)
    (hg2 : ∀ v, v = (0 : ℚ) ∨ v = 1 → g2 v = 0)
    (hg3 : ∀ v, v = (0 : ℚ) ∨ v = 1 → g3 v = 0)
    (hgsc : ∀ a : ℚ, 0 ≤ a → gsc a 0 0 = 1)
    (k : ℕ) (hk : k + 1 ≤ numClasses y) :
    meanL (((zipWith3 (zipWith3 gsc) (sumSpatial (map3d g1 y)) (sumSpatial (map3d g2 y))
      (sumSpatial (map3d g3 y))).map (fun row => row.drop k)).flatten) = 1 := by
  apply meanL_of_all_one
  · intro v hv
    obtain ⟨row', hrow', hvrow'⟩ := List.mem_flatten.mp hv
    obtain ⟨row, hrow, rfl⟩ := List.mem_map.mp hrow'
    have hvrow : v ∈ row := List.mem_of_mem_drop hvrow'
    obtain ⟨tpr, htpr, fpr, hfpr, fnr, hfnr, rfl⟩ :=
      zipWith3_mem (zipWith3 gsc) _ _ _ row hrow
    obtain ⟨a, ha, b, hb, c, hc, rfl⟩ := zipWith3_mem gsc _ _ _ v hvrow
    have hb0 : b = 0 := sumSpatial_prop (· = 0) (fun l h => List.sum_eq_zero h)
      g2 y hent hg2 fpr hfpr b hb
    have hc0 : c = 0 := sumSpatial_prop (· = 0) (fun l h => List.sum_eq_zero h)
      g3 y hent hg3 fnr hfnr c hc
    have ha0 : 0 ≤ a := sumSpatial_prop (0 ≤ ·) (fun l h => List.sum_nonneg h)
      g1 y hent hg1 tpr htpr a ha
    rw [hb0, hc0]
    exact hgsc a ha0
  · obtain ⟨s₀, ys, rfl⟩ : ∃ s₀ ys, y = s₀ :: ys := by
      cases y with
      | nil => exact absurd rfl hB
      | cons s₀ ys => exact ⟨s₀, ys, rfl⟩
    intro hnil
    rw [show sumSpatial (map3d g1 (s₀ :: ys))
        = (s₀.map (fun r => (r.map g1).sum)) :: sumSpatial (map3d g1 ys) from by
          simp [sumSpatial, map3d, List.map_map, Function.comp]] at hnil
    rw [show sumSpatial (map3d g2 (s₀ :: ys))
        = (s₀.map (fun r => (r.map g2).sum)) :: sumSpatial (map3d g2 ys) from by
          simp [sumSpatial, map3d, List.map_map, Function.comp]] at hnil
    rw [show sumSpatial (map3d g3 (s₀ :: ys))
        = (s₀.map (fun r => (r.map g3).sum)) :: sumSpatial (map3d g3 ys) from by
          simp [sumSpatial, map3d, List.map_map, Function.comp]] at hnil
    rw [show zipWith3 (zipWith3 gsc) ((s₀.map (fun r => (r.map g1).sum)) :: sumSpatial (map3d g1 ys))
        ((s₀.map (fun r => (r.map g2).sum)) :: sumSpatial (map3d g2 ys))
        ((s₀.map (fun r => (r.map g3).sum)) :: sumSpatial (map3d g3 ys))
        = zipWith3 gsc (s₀.map (fun r => (r.map g1).sum)) (s₀.map (fun r => (r.map g2).sum))
            (s₀.map (fun r => (r.map g3).sum))
          :: zipWith3 (zipWith3 gsc) (sumSpatial (map3d g1 ys)) (sumSpatial (map3d g2 ys))
            (sumSpatial (map3d g3 ys)) from rfl] at hnil
    rw [List.map_cons, List.flatten_cons] at hnil
    obtain ⟨h1, -⟩ := List.append_eq_nil.mp hnil
    have hlen : (zipWith3 gsc (s₀.map (fun r => (r.map g1).sum))
        (s₀.map (fun r => (r.map g2).sum)) (s₀.map (fun r => (r.map g3).sum))).length
        = numClasses (s₀ :: ys) := by
      rw [zipWith3_length]
      simp only [List.length_map]
      have := hC s₀ (List.mem_cons_self s₀ ys)
      omega
    have : (List.drop k (zipWith3 gsc (s₀.map (fun r => (r.map g1).sum))
        (s₀.map (fun r => (r.map g2).sum)) (s₀.map (fun r => (r.map g3).sum)))).length = 0 := by
      rw [h1]
      rfl
    rw [List.length_drop, hlen] at this
    omega

theorem map_drop_zero {α : Type} (l : List (List α)) :
    l.map (fun row => row.drop 0) = l := by simp

/-- C4: when the prediction exactly equals the one-hot encoding of the ground truth (so
fp = fn = 0 after confusion accumulation while tp stays nonnegative), `SoftDiceLoss`
returns `0`, `IoULoss` returns `-1` and `TverskyLoss` returns `-1`, exactly in exact
arithmetic, for every smoothing constant `s > 0` (the smoothing term cancels:
`(2*tp+s)/(2*tp+fp+fn+s) = 1` when `fp = fn = 0`), in every `batch_dice`/`square`/`do_bg`
configuration that leaves at least one class to average over. -/
theorem C4_perfect_prediction (y : T3 ℚ) (smooth : ℚ) (hs : 0 < smooth)
    (batch_dice do_bg square : Bool)
    (hent : ∀ smp ∈ y, ∀ r ∈ smp, ∀ v ∈ r, v = (0 : ℚ) ∨ v = 1)
    (hB : y ≠ [])
    (hC : ∀ smp ∈ y, smp.length = numClasses y)
    (hcls : (if do_bg then 1 else 2) ≤ numClasses y) :
    SoftDiceLoss_forward none batch_dice do_bg smooth square y (.onehot y) none = 0
    ∧ IoULoss_forward none batch_dice do_bg smooth square y (.onehot y) none = -1
    ∧ TverskyLoss_forward none batch_dice do_bg smooth square y (.onehot y) none = -1 := by
  have hga : ∀ v : ℚ, v = 0 ∨ v = 1 → 0 ≤ v * v := by rintro v (rfl | rfl) <;> norm_num
  have hga' : ∀ v : ℚ, v = 0 ∨ v = 1 → 0 ≤ (v * v) ^ 2 := by
    rintro v (rfl | rfl) <;> norm_num
  have hgb : ∀ v : ℚ, v = 0 ∨ v = 1 → v * (1 - v) = 0 := by
    rintro v (rfl | rfl) <;> norm_num
  have hgb' : ∀ v : ℚ, v = 0 ∨ v = 1 → (v * (1 - v)) ^ 2 = 0 := by
    rintro v (rfl | rfl) <;> norm_num
  have hgc : ∀ v : ℚ, v = 0 ∨ v = 1 → (1 - v) * v = 0 := by
    rintro v (rfl | rfl) <;> norm_num
  have hgc' : ∀ v : ℚ, v = 0 ∨ v = 1 → ((1 - v) * v) ^ 2 = 0 := by
    rintro v (rfl | rfl) <;> norm_num
  have hscD : ∀ a : ℚ, 0 ≤ a → (2 * a + smooth) / (2 * a + 0 + 0 + smooth) = 1 := by
    intro a ha
    have h : 2 * a + 0 + 0 + smooth = 2 * a + smooth := by ring
    rw [h]
    exact div_self (by positivity)
  have hscI : ∀ a : ℚ, 0 ≤ a → (a + smooth) / (a + 0 + 0 + smooth) = 1 := by
    intro a ha
    have h : a + 0 + 0 + smooth = a + smooth := by ring
    rw [h]
    exact div_self (by positivity)
  have hscT : ∀ a : ℚ, 0 ≤ a →
      (a + smooth) / (a + 3 / 10 * 0 + 7 / 10 * 0 + smooth) = 1 := by
    intro a ha
    have h : a + 3 / 10 * 0 + 7 / 10 * 0 + smooth = a + smooth := by ring
    rw [h]
    exact div_self (by positivity)
  refine ⟨?_, ?_, ?_⟩
  · unfold SoftDiceLoss_forward
    cases square <;> cases batch_dice <;> cases do_bg <;>
      simp only [confusionMaps_self, get_tp_fp_fn_batch, get_tp_fp_fn, Bool.false_eq_true,
        if_true, if_false, reduceIte]
    · rw [C4_persample y _ _ _ _ hent hB hC hga hgb hgc hscD 1 (by simpa using hcls)]
      try norm_num
    · rw [← map_drop_zero (zipWith3 (zipWith3 _) _ _ _),
        C4_persample y _ _ _ _ hent hB hC hga hgb hgc hscD 0 (by simpa using hcls)]
      try norm_num
    · rw [C4_batch y _ _ _ _ hent hga hgb hgc hscD 1 (by simpa using hcls)]
      try norm_num
    · rw [← List.drop_zero (zipWith3 _ _ _ _),
        C4_batch y _ _ _ _ hent hga hgb hgc hscD 0 (by simpa using hcls)]
      try norm_num
    · rw [C4_persample y _ _ _ _ hent hB hC hga' hgb' hgc' hscD 1 (by simpa using hcls)]
      try norm_num
    · rw [← map_drop_zero (zipWith3 (zipWith3 _) _ _ _),
        C4_persample y _ _ _ _ hent hB hC hga' hgb' hgc' hscD 0 (by simpa using hcls)]
      try norm_num
    · rw [C4_batch y _ _ _ _ hent hga' hgb' hgc' hscD 1 (by simpa using hcls)]
      try norm_num
    · rw [← List.drop_zero (zipWith3 _ _ _ _),
        C4_batch y _ _ _ _ hent hga' hgb' hgc' hscD 0 (by simpa using hcls)]
      try norm_num
  · unfold IoULoss_forward
    cases square <;> cases batch_dice <;> cases do_bg <;>
      simp only [confusionMaps_self, get_tp_fp_fn_batch, get_tp_fp_fn, Bool.false_eq_true,
        if_true, if_false, reduceIte]
    · rw [C4_persample y _ _ _ _ hent hB hC hga hgb hgc hscI 1 (by simpa using hcls)]
      try norm_num
    · rw [← map_drop_zero (zipWith3 (zipWith3 _) _ _ _),
        C4_persample y _ _ _ _ hent hB hC hga hgb hgc hscI 0 (by simpa using hcls)]
      try norm_num
    · rw [C4_batch y _ _ _ _ hent hga hgb hgc hscI 1 (by simpa using hcls)]
      try norm_num
    · rw [← List.drop_zero (zipWith3 _ _ _ _),
        C4_batch y _ _ _ _ hent hga hgb hgc hscI 0 (by simpa using hcls)]
      try norm_num
    · rw [C4_persample y _ _ _ _ hent hB hC hga' hgb' hgc' hscI 1 (by simpa using hcls)]
      try norm_num
    · rw [← map_drop_zero (zipWith3 (zipWith3 _) _ _ _),
        C4_persample y _ _ _ _ hent hB hC hga' hgb' hgc' hscI 0 (by simpa using hcls)]
      try norm_num
    · rw [C4_batch y _ _ _ _ hent hga' hgb' hgc' hscI 1 (by simpa using hcls)]
      try norm_num
    · rw [← List.drop_zero (zipWith3 _ _ _ _),
        C4_batch y _ _ _ _ hent hga' hgb' hgc' hscI 0 (by simpa using hcls)]
      try norm_num
  · unfold TverskyLoss_forward
    cases square <;> cases batch_dice <;> cases do_bg <;>
      simp only [confusionMaps_self, get_tp_fp_fn_batch, get_tp_fp_fn, Bool.false_eq_true,
        if_true, if_false, reduceIte]
    · rw [C4_persample y _ _ _ _ hent hB hC hga hgb hgc hscT 1 (by simpa using hcls)]
      try norm_num
    · rw [← map_drop_zero (zipWith3 (zipWith3 _) _ _ _),
        C4_persample y _ _ _ _ hent hB hC hga hgb hgc hscT 0 (by simpa using hcls)]
      try norm_num
    · rw [C4_batch y _ _ _ _ hent hga hgb hgc hscT 1 (by simpa using hcls)]
      try norm_num
    · rw [← List.drop_zero (zipWith3 _ _ _ _),
        C4_batch y _ _ _ _ hent hga hgb hgc hscT 0 (by simpa using hcls)]
      try norm_num
    · rw [C4_persample y _ _ _ _ hent hB hC hga' hgb' hgc' hscT 1 (by simpa using hcls)]
      try norm_num
    · rw [← map_drop_zero (zipWith3 (zipWith3 _) _ _ _),
        C4_persample y _ _ _ _ hent hB hC hga' hgb' hgc' hscT 0 (by simpa using hcls)]
      try norm_num
    · rw [C4_batch y _ _ _ _ hent hga' hgb' hgc' hscT 1 (by simpa using hcls)]
      try norm_num
    · rw [← List.drop_zero (zipWith3 _ _ _ _),
        C4_batch y _ _ _ _ hent hga' hgb' hgc' hscT 0 (by simpa using hcls)]
      try norm_num

theorem C4_witness :
    (0 : ℚ) < 1
    ∧ (SoftDiceLoss_forward none false true 1 false ([[[1, 0], [0, 1]]] : T3 ℚ)
        (.onehot [[[1, 0], [0, 1]]]) none = 0
      ∧ IoULoss_forward none false true 1 false ([[[1, 0], [0, 1]]] : T3 ℚ)
        (.onehot [[[1, 0], [0, 1]]]) none = -1
      ∧ TverskyLoss_forward none false true 1 false ([[[1, 0], [0, 1]]] : T3 ℚ)
        (.onehot [[[1, 0], [0, 1]]]) none = -1) :=
  ⟨by norm_num, C4_perfect_prediction [[[1, 0], [0, 1]]] 1 (by norm_num) false true false
    (by decide) (by decide) (by decide) (by decide)⟩

theorem getD_range_map {α : Type} (C c : ℕ) (g : ℕ → α) (d : α) (hc : c < C) :
    ((List.range C).map g).getD c d = g c := by
  rw [List.getD_eq_getElem _ _ (by simpa using hc)]
  simp

theorem numClasses_idxT3 {α : Type} (B C : ℕ) (N : ℕ → ℕ → ℕ) (f : ℕ → ℕ → ℕ → α)
    (hB : 0 < B) : numClasses (idxT3 B C N f) = C := by
  obtain ⟨B', rfl⟩ : ∃ B', B = B' + 1 := ⟨B - 1, by omega⟩
  simp [idxT3, numClasses, List.range_succ_eq_map]

theorem sumSpatial_idxT3 (B C : ℕ) (N : ℕ → ℕ → ℕ) (f : ℕ → ℕ → ℕ → ℚ) :
    sumSpatial (idxT3 B C N f)
      = (List.range B).map (fun b => (List.range C).map (fun c =>
          ((List.range (N b c)).map (f b c)).sum)) := by
  simp [sumSpatial, idxT3, List.map_map, Function.comp]

theorem sumBatchSpatial_idxT3 (B C : ℕ) (N : ℕ → ℕ → ℕ) (f : ℕ → ℕ → ℕ → ℚ)
    (hB : 0 < B) :
    sumBatchSpatial (idxT3 B C N f)
      = (List.range C).map (fun c => ((List.range B).map (fun b =>
          ((List.range (N b c)).map (f b c)).sum)).sum) := by
  unfold sumBatchSpatial
  rw [numClasses_idxT3 B C N f hB, sumSpatial_idxT3]
  apply List.map_congr_left
  intro c hc
  rw [List.map_map]
  congr 1
  apply List.map_congr_left
  intro b _
  simp only [Function.comp]
  rw [getD_range_map C c _ 0 (List.mem_range.mp hc)]

theorem map3d2_idx (f : ℚ → ℚ → ℚ) (net y : T3 ℚ)
    (hCuni : ∀ smp ∈ net, smp.length = numClasses net)
    (hBy : y.length = net.length)
    (hsmp : ∀ b < net.length, (y.getD b []).length = (net.getD b []).length)
    (hrow : ∀ b < net.length, ∀ c < numClasses net,
      ((y.getD b []).getD c []).length = ((net.getD b []).getD c []).length) :
    map3d2 f net y = idxT3 net.length (numClasses net)
      (fun b c => ((net.getD b []).getD c []).length)
      (fun b c n => f (at3 net b c n) (at3 y b c n)) := by
  apply List.ext_getElem
  · simp [map3d2, idxT3, hBy]
  intro b hb1 hb2
  have hbB : b < net.length := by
    simpa [map3d2, hBy] using hb1
  have hbY : b < y.length := by omega
  have hnetb : net.getD b [] = net[b] := List.getD_eq_getElem net [] hbB
  have hyb : y.getD b [] = y[b] := List.getD_eq_getElem y [] hbY
  have hlenb : y[b].length = net[b].length := by
    have := hsmp b hbB
    rwa [hnetb, hyb] at this
  have hCb : net[b].length = numClasses net := hCuni net[b] (List.getElem_mem hbB)
  rw [show (map3d2 f net y)[b] = List.zipWith (List.zipWith f) net[b] y[b] from by
    simp [map3d2]]
  rw [show (idxT3 net.length (numClasses net)
      (fun b c => ((net.getD b []).getD c []).length)
      (fun b c n => f (at3 net b c n) (at3 y b c n)))[b]
      = (List.range (numClasses net)).map (fun c =>
          (List.range (((net.getD b []).getD c []).length)).map
            (fun n => f (at3 net b c n) (at3 y b c n))) from by
    simp [idxT3]]
  apply List.ext_getElem
  · simp [hlenb, hCb]
  intro c hc1 hc2
  have hcC : c < numClasses net := by
    simpa [hlenb, hCb] using hc1
  have hcb : c < net[b].length := by omega
  have hcy : c < y[b].length := by omega
  have hnetbc : (net.getD b []).getD c [] = net[b][c] := by
    rw [hnetb, List.getD_eq_getElem net[b] [] hcb]
  have hybc : (y.getD b []).getD c [] = y[b][c] := by
    rw [hyb, List.getD_eq_getElem y[b] [] hcy]
  have hlenr : y[b][c].length = net[b][c].length := by
    have := hrow b hbB c hcC
    rwa [hnetbc, hybc] at this
  rw [List.getElem_zipWith, List.getElem_map, List.getElem_range]
  apply List.ext_getElem
  · rw [List.length_zipWith, List.length_map, List.length_range, hnetbc]
    omega
  intro n hn1 hn2
  have hnN : n < net[b][c].length := by
    simpa [hlenr] using hn1
  have hnY : n < y[b][c].length := by omega
  rw [List.getElem_zipWith, List.getElem_map, List.getElem_range]
  congr 1
  · rw [at3, hnetbc, List.getD_eq_getElem net[b][c] 0 hnN]
  · rw [at3, hybc, List.getD_eq_getElem y[b][c] 0 hnY]

theorem map3d_idx {α : Type} (g : α → α) (B C : ℕ) (N : ℕ → ℕ → ℕ) (f : ℕ → ℕ → ℕ → α) :
    map3d g (idxT3 B C N f) = idxT3 B C N (fun b c n => g (f b c n)) := by
  simp [map3d, idxT3, List.map_map, Function.comp]

theorem getD_zipWith_rows {α β γ : Type} (f : α → β → γ) (l1 : List α) (l2 : List β)
    (b : ℕ) (dA : α) (dB : β) (dC : γ) (h1 : b < l1.length) (h2 : b < l2.length) :
    (List.zipWith f l1 l2).getD b dC = f (l1.getD b dA) (l2.getD b dB) := by
  rw [List.getD_eq_getElem _ dC (by rw [List.length_zipWith]; omega),
    List.getElem_zipWith, List.getD_eq_getElem _ dA h1, List.getD_eq_getElem _ dB h2]

theorem getD_map_rows {α β : Type} (g : α → β) (l : List α) (b : ℕ) (dA : α) (dB : β)
    (h : b < l.length) : (l.map g).getD b dB = g (l.getD b dA) := by
  rw [List.getD_eq_getElem _ dB (by simpa using h), List.getElem_map,
    List.getD_eq_getElem _ dA h]

theorem applyMask_idx (B C : ℕ) (N : ℕ → ℕ → ℕ) (f : ℕ → ℕ → ℕ → ℚ) (mk : T3 ℚ)
    (hB : 0 < B) (hC : 0 < C) (hmB : mk.length = B)
    (hmN : ∀ b < B, ∀ c < C, ((mk.getD b []).getD 0 []).length = N b c) :
    applyMask (idxT3 B C N f) mk
      = idxT3 B C N (fun b c n => f b c n * ((mk.getD b []).getD 0 []).getD n 0) := by
  have hlen : (idxT3 B C N f).length = B := by simp [idxT3]
  unfold applyMask unbind1 stack1 maskChannel
  rw [numClasses_idxT3 B C N f hB, List.map_map]
  have hhead : (((List.range C).map ((fun sl => List.zipWith
      (fun row mrow => List.zipWith (fun a b => a * b) row mrow) sl
      (mk.map (fun s => s.getD 0 []))) ∘
      (fun c => (idxT3 B C N f).map (fun s => s.getD c [])))).headD []).length = B := by
    obtain ⟨C', rfl⟩ : ∃ C', C = C' + 1 := ⟨C - 1, by omega⟩
    simp [List.range_succ_eq_map, List.length_zipWith, hmB, hlen]
  rw [hhead]
  conv_rhs => unfold idxT3
  apply List.map_congr_left
  intro b hb
  have hbB : b < B := List.mem_range.mp hb
  rw [List.map_map]
  apply List.map_congr_left
  intro c hc
  have hcC : c < C := List.mem_range.mp hc
  simp only [Function.comp]
  rw [getD_zipWith_rows _ _ _ b [] [] []
    (by rw [List.length_map, hlen]; exact hbB)
    (by rw [List.length_map, hmB]; exact hbB)]
  rw [getD_map_rows _ _ b [] [] (by rw [hlen]; exact hbB)]
  rw [getD_map_rows _ _ b [] [] (by rw [hmB]; exact hbB)]
  rw [show (idxT3 B C N f).getD b [] = (List.range C).map
      (fun c' => (List.range (N b c')).map (f b c')) from by
    unfold idxT3
    rw [getD_range_map B b _ [] hbB]]
  rw [getD_range_map C c _ [] hcC]
  have hmlen : ((mk.getD b []).getD 0 []).length = N b c := hmN b hbB c hcC
  apply List.ext_getElem
  · rw [List.length_zipWith, List.length_map, List.length_range, List.length_map,
      List.length_range, hmlen]
    omega
  intro n hn1 hn2
  have hnN : n < N b c := by simpa using hn2
  rw [List.getElem_zipWith, List.getElem_map, List.getElem_range, List.getElem_map,
    List.getElem_range]
  congr 1
  rw [List.getD_eq_getElem ((mk.getD b []).getD 0 []) 0 (by rw [hmlen]; exact hnN)]

/-- C5: `get_tp_fp_fn` computes `tp = pred * onehot`, `fp = pred * (1 - onehot)`,
`fn = (1 - pred) * onehot` pointwise; when a mask is given, each per-class slice is
multiplied by the mask's single channel (`maskVal`), so masked-out locations contribute
zero to all three sums; and when `square = True` the pointwise square (`sqFun`) is applied
to tp, fp, fn after the masking and before the summation over the reduction axes (spatial
axes per sample, or batch plus spatial axes).  Stated as an explicit index-level
characterization of the three confusion maps and of both reductions. -/
theorem C5_get_tp_fp_fn_characterization (net y : T3 ℚ) (mopt : Option (T3 ℚ))
    (square : Bool)
    (hC0 : 0 < numClasses net)
    (hCuni : ∀ smp ∈ net, smp.length = numClasses net)
    (hBy : y.length = net.length)
    (hsmp : ∀ b < net.length, (y.getD b []).length = (net.getD b []).length)
    (hrow : ∀ b < net.length, ∀ c < numClasses net,
      ((y.getD b []).getD c []).length = ((net.getD b []).getD c []).length)
    (hm : ∀ mk, mopt = some mk → mk.length = net.length ∧
      ∀ b < net.length, ∀ c < numClasses net,
        ((mk.getD b []).getD 0 []).length = ((net.getD b []).getD c []).length) :
    ((confusionMaps net (GroundTruth.onehot y) mopt square).1
      = idxT3 net.length (numClasses net)
          (fun b c => ((net.getD b []).getD c []).length)
          (fun b c n => sqFun square ((at3 net b c n * at3 y b c n) * maskVal mopt b n)))
    ∧
    ((confusionMaps net (GroundTruth.onehot y) mopt square).2.1
      = idxT3 net.length (numClasses net)
          (fun b c => ((net.getD b []).getD c []).length)
          (fun b c n => sqFun square ((at3 net b c n * (1 - at3 y b c n)) * maskVal mopt b n)))
    ∧
    ((confusionMaps net (GroundTruth.onehot y) mopt square).2.2
      = idxT3 net.length (numClasses net)
          (fun b c => ((net.getD b []).getD c []).length)
          (fun b c n => sqFun square (((1 - at3 net b c n) * at3 y b c n) * maskVal mopt b n)))
    ∧
    ((get_tp_fp_fn net (GroundTruth.onehot y) mopt square).1
      = (List.range net.length).map (fun b => (List.range (numClasses net)).map (fun c =>
          ((List.range (((net.getD b []).getD c []).length)).map (fun n =>
            sqFun square ((at3 net b c n * at3 y b c n) * maskVal mopt b n))).sum)))
    ∧
    ((get_tp_fp_fn net (GroundTruth.onehot y) mopt square).2.1
      = (List.range net.length).map (fun b => (List.range (numClasses net)).map (fun c =>
          ((List.range (((net.getD b []).getD c []).length)).map (fun n =>
            sqFun square ((at3 net b c n * (1 - at3 y b c n)) * maskVal mopt b n))).sum)))
    ∧
    ((get_tp_fp_fn net (GroundTruth.onehot y) mopt square).2.2
      = (List.range net.length).map (fun b => (List.range (numClasses net)).map (fun c =>
          ((List.range (((net.getD b []).getD c []).length)).map (fun n =>
            sqFun square (((1 - at3 net b c n) * at3 y b c n) * maskVal mopt b n))).sum)))
    ∧
    ((get_tp_fp_fn_batch net (GroundTruth.onehot y) mopt square).1
      = (List.range (numClasses net)).map (fun c => ((List.range net.length).map (fun b =>
          ((List.range (((net.getD b []).getD c []).length)).map (fun n =>
            sqFun square ((at3 net b c n * at3 y b c n) * maskVal mopt b n))).sum)).sum))
    ∧
    ((get_tp_fp_fn_batch net (GroundTruth.onehot y) mopt square).2.1
      = (List.range (numClasses net)).map (fun c => ((List.range net.length).map (fun b =>
          ((List.range (((net.getD b []).getD c []).length)).map (fun n =>
            sqFun square ((at3 net b c n * (1 - at3 y b c n)) * maskVal mopt b n))).sum)).sum))
    ∧
    ((get_tp_fp_fn_batch net (GroundTruth.onehot y) mopt square).2.2
      = (List.range (numClasses net)).map (fun c => ((List.range net.length).map (fun b =>
          ((List.range (((net.getD b []).getD c []).length)).map (fun n =>
            sqFun square (((1 - at3 net b c n) * at3 y b c n) * maskVal mopt b n))).sum)).sum)) := by
  have hBpos : 0 < net.length := by
    cases net with
    | nil => simp [numClasses] at hC0
    | cons s t => simp
  have key : ∀ g : ℚ → ℚ → ℚ,
      sqStep square (maskStep mopt (map3d2 g net y))
      = idxT3 net.length (numClasses net)
          (fun b c => ((net.getD b []).getD c []).length)
          (fun b c n => sqFun square
            ((g (at3 net b c n) (at3 y b c n)) * maskVal mopt b n)) := by
    intro g
    rcases mopt with _ | mk
    · simp only [maskStep, maskVal]
      rw [map3d2_idx g net y hCuni hBy hsmp hrow]
      cases square
      · simp [sqStep, sqFun, mul_one]
      · simp only [sqStep, sqFun, if_true, reduceIte]
        rw [map3d_idx]
        simp [mul_one]
    · obtain ⟨hmB, hmN⟩ := hm mk rfl
      simp only [maskStep, maskVal]
      rw [map3d2_idx g net y hCuni hBy hsmp hrow,
        applyMask_idx net.length (numClasses net) _ _ mk hBpos hC0 hmB hmN]
      cases square
      · simp [sqStep, sqFun]
      · simp only [sqStep, sqFun, if_true, reduceIte]
        rw [map3d_idx]
  have k1 := key (fun a b => a * b)
  have k2 := key (fun a b => a * (1 - b))
  have k3 := key (fun a b => (1 - a) * b)
  have e1 : (confusionMaps net (GroundTruth.onehot y) mopt square).1
      = sqStep square (maskStep mopt (map3d2 (fun a b => a * b) net y)) := by
    rcases mopt with _ | mk <;> cases square <;> rfl
  have e2 : (confusionMaps net (GroundTruth.onehot y) mopt square).2.1
      = sqStep square (maskStep mopt (map3d2 (fun a b => a * (1 - b)) net y)) := by
    rcases mopt with _ | mk <;> cases square <;> rfl
  have e3 : (confusionMaps net (GroundTruth.onehot y) mopt square).2.2
      = sqStep square (maskStep mopt (map3d2 (fun a b => (1 - a) * b) net y)) := by
    rcases mopt with _ | mk <;> cases square <;> rfl
  have s1 : (get_tp_fp_fn net (GroundTruth.onehot y) mopt square).1
      = sumSpatial ((confusionMaps net (GroundTruth.onehot y) mopt square).1) := rfl
  have s2 : (get_tp_fp_fn net (GroundTruth.onehot y) mopt square).2.1
      = sumSpatial ((confusionMaps net (GroundTruth.onehot y) mopt square).2.1) := rfl
  have s3 : (get_tp_fp_fn net (GroundTruth.onehot y) mopt square).2.2
      = sumSpatial ((confusionMaps net (GroundTruth.onehot y) mopt square).2.2) := rfl
  have b1 : (get_tp_fp_fn_batch net (GroundTruth.onehot y) mopt square).1
      = sumBatchSpatial ((confusionMaps net (GroundTruth.onehot y) mopt square).1) := rfl
  have b2 : (get_tp_fp_fn_batch net (GroundTruth.onehot y) mopt square).2.1
      = sumBatchSpatial ((confusionMaps net (GroundTruth.onehot y) mopt square).2.1) := rfl
  have b3 : (get_tp_fp_fn_batch net (GroundTruth.onehot y) mopt square).2.2
      = sumBatchSpatial ((confusionMaps net (GroundTruth.onehot y) mopt square).2.2) := rfl
  refine ⟨e1.trans k1, e2.trans k2, e3.trans k3, ?_, ?_, ?_, ?_, ?_, ?_⟩
  · rw [s1, e1, k1, sumSpatial_idxT3]
  · rw [s2, e2, k2, sumSpatial_idxT3]
  · rw [s3, e3, k3, sumSpatial_idxT3]
  · rw [b1, e1, k1, sumBatchSpatial_idxT3 _ _ _ _ hBpos]
  · rw [b2, e2, k2, sumBatchSpatial_idxT3 _ _ _ _ hBpos]
  · rw [b3, e3, k3, sumBatchSpatial_idxT3 _ _ _ _ hBpos]

theorem C5_witness :
    (0 < numClasses ([[[2], [5]]] : T3 ℚ))
    ∧ (confusionMaps ([[[2], [5]]] : T3 ℚ) (GroundTruth.onehot [[[1], [0]]])
        (some [[[3]]]) true).1 = [[[36], [0]]] :=
  ⟨by decide, (C5_get_tp_fp_fn_characterization [[[2], [5]]] [[[1], [0]]]
      (some [[[3]]]) true (by decide) (by decide) (by decide) (by decide) (by decide)
      (fun mk hmk => by
        injection hmk with h
        subst h
        exact ⟨by decide, by decide⟩)).1.trans
    (by norm_num [idxT3, at3, sqFun, maskVal, numClasses, List.range_succ])⟩
